import Mathlib

/-!
Shallow embedding of the DP-PDS repository (PCSA sketch, RRT/GRR randomized
response, PrivSketch pipeline) and verification of the frozen claims.

Conventions:
* Python floats are modelled as real numbers (`ℝ`); the perturbation
  probability `r` is rational input data, so it is kept in `ℚ` to keep
  branch conditions decidable.
* Python code that can raise is modelled in the `Except String` monad, the
  string being the Python exception name or message.
* Randomness is passed in explicitly: a uniform draw `u ∈ [0,1)` is a real
  argument, a `random.choice` over a list is an index argument.
-/

/-- Python list indexing convention: `-len ≤ i < len` is valid, negative
indices count from the end; anything else is an `IndexError`. -/
def pyIndex (len : ℕ) (i : ℤ) : Option ℕ :=
  if 0 ≤ i then
    (if i < (len : ℤ) then some i.toNat else none)
  else
    (if -(len : ℤ) ≤ i then some ((len : ℤ) + i).toNat else none)

/-- Read `row[i]` with Python indexing semantics (`bitarray.__getitem__`). -/
def pyGetBit (row : List Bool) (i : ℤ) : Except String Bool :=
  match pyIndex row.length i with
  | some j => .ok (row.getD j false)
  | none => .error "IndexError"

/-- Write `row[i] = b` with Python indexing semantics. -/
def pySetBit (row : List Bool) (i : ℤ) (b : Bool) : Except String (List Bool) :=
  match pyIndex row.length i with
  | some j => .ok (row.set j b)
  | none => .error "IndexError"

/-- Trailing-zero scan with explicit fuel (structural recursion so that it
reduces definitionally; `fuel = n` is enough for any `n ≥ 1`). -/
def ntzGo (fuel n : ℕ) : ℕ :=
  match fuel with
  | 0 => 0
  | fuel + 1 => if n % 2 = 1 then 0 else 1 + ntzGo fuel (n / 2)

/-- Number of trailing zeros of a positive natural number; `ntz 0 = 0`.
This is `bin(n)[2:][::-1].find("1")` for `n > 0` (pcsa.py lines 101-103). -/
def ntz (n : ℕ) : ℕ :=
  if n = 0 then 0 else ntzGo n n

/-- `a | b` on two equal-length bit rows (`bitarray.__or__`). -/
def orRow (a b : List Bool) : List Bool := List.zipWith or a b

/-- Row-wise OR of two bitmaps of equal shape. -/
def orRows (a b : List (List Bool)) : List (List Bool) := List.zipWith orRow a b

/-- All-zero bitmap: `[length * bitarray('0') for i in range(nmap)]`. -/
def zeroBitmap (nmap len : ℕ) : List (List Bool) :=
  List.replicate nmap (List.replicate len false)

/-- The inner product over `i = 1..m` of the `φ` estimation loop
(pcsa.py lines 196-201): returns the running `qk` after `m` steps together
with the last computed `a = qk - qk1`.  Everything up to the final power is
rational arithmetic. -/
def phiInner (r : ℚ) (n : ℕ) : ℕ → ℚ × ℚ
  | 0 => (1, 0)
  | m + 1 =>
    let qk := (phiInner r n m).1
    let i : ℕ := m + 1
    let qk' := qk * (1 - (1 - (2 : ℚ) ^ (-(i : ℤ))) ^ n * (1 - r))
    let qk1 := qk' * (1 - (1 - (2 : ℚ) ^ (-((i : ℤ) + 1))) ^ n * (1 - r))
    (qk', qk' - qk1)

/-- `calculate_prop_factor` for `r ≠ 0` (pcsa.py lines 190-204): with
`w = 32`, `n = 100000`, accumulate `E = Σ_{j=1}^{32} j · a_j` where `a_j` is
the last inner-step difference, then `φ = 2^E / n`. -/
noncomputable def phiPerturbed (r : ℚ) : ℝ :=
  let n : ℕ := 100000
  let e : ℚ := ((List.range 32).map (fun j => ((j + 1 : ℕ) : ℚ) * (phiInner r n (j + 1)).2)).sum
  (2 : ℝ) ^ ((e : ℝ)) / (n : ℝ)

/-- `calculate_prop_factor` (pcsa.py lines 175-204). -/
noncomputable def phiOf (r : ℚ) : ℝ :=
  if r = 0 then 0.773519 else phiPerturbed r

/-- PCSA sketch state.  `hashId` stands for the identity of the
`hash_function` object (compared by `!=` in `union`); the hash values
themselves are passed to `pcsaAdd` directly. -/
structure PCSA where
  hashId : ℕ
  nmap : ℕ
  length : ℕ
  r : ℚ
  PHI : ℝ
  bitmap : List (List Bool)

/-- `PCSA.__init__` (pcsa.py lines 46-77): guard `nmap, length ≥ 1`, start
from the all-zero bitmap, compute `PHI`, and if `r > 0` OR a Bernoulli(r)
matrix (supplied here as the explicit argument `pert`) into the bitmap. -/
noncomputable def mkPCSA (hashId nmap len : ℕ) (r : ℚ) (pert : List (List Bool)) :
    Except String PCSA :=
  if nmap < 1 ∨ len < 1 then .error "nmap and length have to be at least 1"
  else
    .ok { hashId := hashId, nmap := nmap, length := len, r := r, PHI := phiOf r,
          bitmap := if 0 < r then orRows (zeroBitmap nmap len) pert else zeroBitmap nmap len }

/-- `PCSA.add` (pcsa.py lines 91-105) as a function of the item's hash value
`h` (an unsigned integer): `index_alpha = h % nmap`, `ix = h // nmap`,
`index_beta = bin(ix)[2:][::-1].find("1")` (which is `-1` when `ix = 0`),
then `if bitmap[index_alpha][index_beta] == 0: bitmap[index_alpha][index_beta] = 1`
with Python (negative-index) list semantics. -/
def pcsaAdd (s : PCSA) (h : ℕ) : Except String PCSA :=
  if s.nmap = 0 then .error "ZeroDivisionError"
  else
    let ia := h % s.nmap
    let ix := h / s.nmap
    let ib : ℤ := if ix = 0 then -1 else (ntz ix : ℤ)
    match s.bitmap[ia]? with
    | none => .error "IndexError"
    | some row => do
      let b ← pyGetBit row ib
      if b then .ok s
      else do
        let row2 ← pySetBit row ib true
        .ok { s with bitmap := s.bitmap.set ia row2 }

/-- All-zero sketch with `r = 0`, as produced by `PCSA(hash, nmap, length)`. -/
noncomputable def zeroPCSA (nmap len : ℕ) : PCSA :=
  { hashId := 0, nmap := nmap, length := len, r := 0, PHI := phiOf 0,
    bitmap := zeroBitmap nmap len }

/-- Well-formedness of a sketch as guaranteed by `PCSA.__init__`: positive
dimensions, `nmap` rows, each row of `length` bits. -/
def PCSA.WF (s : PCSA) : Prop :=
  1 ≤ s.nmap ∧ 1 ≤ s.length ∧ s.bitmap.length = s.nmap ∧
    ∀ row ∈ s.bitmap, row.length = s.length

/-- `bitmap[row][0]` summand of `count` (pcsa.py lines 137-139). -/
def rowBit0 (s : PCSA) (row : ℕ) : ℕ :=
  if (s.bitmap.getD row []).getD 0 false then 1 else 0

/-- `sum_one` of `count` (pcsa.py lines 137-139). -/
def sumOne (s : PCSA) : ℕ := ((List.range s.nmap).map (rowBit0 s)).sum

/-- `k = nmap - sum_one` (pcsa.py line 140). -/
def kOf (s : PCSA) : ℤ := (s.nmap : ℤ) - (sumOne s : ℤ)

/-- The inner loop of the FM branch of `count` (pcsa.py lines 147-151): scan
columns `0..length-1` and contribute the index of the first 0-bit; a row
without a 0-bit contributes nothing (the loop just falls through). -/
def codeFirstZero (len : ℕ) (row : List Bool) : ℕ :=
  ((List.range len).find? (fun c => row.getD c false == false)).getD 0

/-- `sum_ix` of the FM branch of `count`. -/
def sumIx (s : PCSA) : ℕ :=
  ((List.range s.nmap).map (fun row => codeFirstZero s.length (s.bitmap.getD row []))).sum

/-- `PCSA.count` (pcsa.py lines 107-155): hit counting when
`k > 0.3 * nmap`, otherwise the Flajolet-Martin estimator
`nmap * 2^(sum_ix / nmap) / PHI`. -/
noncomputable def pcsaCount (s : PCSA) : ℝ :=
  if (kOf s : ℚ) > 0.3 * (s.nmap : ℚ) then
    (-2 * (s.nmap : ℝ)) * Real.log ((kOf s : ℝ) / (s.nmap : ℝ))
  else
    (s.nmap : ℝ) * (2 : ℝ) ^ ((sumIx s : ℝ) / (s.nmap : ℝ)) / s.PHI

/-- Modelled from the spec's words for comparison (claim C2): `R_row` is the
index of the first 0-bit of the row, and `length` when every bit is 1. -/
def specFirstZero (len : ℕ) (row : List Bool) : ℕ :=
  ((List.range len).find? (fun c => row.getD c false == false)).getD len

/-- Modelled from the spec's words for comparison (claim C2): the
Flajolet-Martin estimate `nmap * 2^((Σ R_row)/nmap) / phi` with
`R_row = length` on all-ones rows. -/
noncomputable def specFMCount (s : PCSA) : ℝ :=
  (s.nmap : ℝ) *
    (2 : ℝ) ^
      ((((List.range s.nmap).map
          (fun row => specFirstZero s.length (s.bitmap.getD row []))).sum : ℝ) /
        (s.nmap : ℝ)) / s.PHI

/-- A one-row, one-bit sketch whose single bit is set: the FM branch of
`count` applies to it and its only row is all ones. -/
noncomputable def c2Sketch : PCSA :=
  { hashId := 0, nmap := 1, length := 1, r := 0, PHI := phiOf 0, bitmap := [[true]] }

/-- C1: `add(item)` computes `row = h mod nmap`, `tail = h div nmap`, and the
least-significant set bit `j` of `tail`; the claim states that `j ≥ length`
drops the update silently and `tail == 0` is a no-update.  The code instead
raises `IndexError` when `j ≥ length`, and for `tail == 0` it indexes the row
with `-1`, i.e. it SETS THE LAST BIT `bitmap[row][length-1]`.  This theorem
evaluates the embedded code at both failing inputs: with `nmap = 2`,
`length = 2` and hash value `1` (so `tail = 0`) the last bit of row 1 is set,
and with `nmap = 1`, `length = 2` and hash value `4` (so `j = 2 ≥ length`)
an `IndexError` is raised. -/
theorem c1_add_tail_zero_sets_last_bit :
    (pcsaAdd (zeroPCSA 2 2) 1).map PCSA.bitmap =
      .ok [[false, false], [false, true]] ∧
    (pcsaAdd (zeroPCSA 1 2) 4).map PCSA.bitmap = .error "IndexError" := by
  constructor <;> rfl

/-- C2 counterexample: the claim says an all-ones row contributes
`R_row = length` to the FM estimate.  On the sketch `c2Sketch` (one all-ones
row of length 1, which is in the FM regime since `k = 0 ≤ 0.3 * nmap`) the
code returns `1 * 2^0 / φ` while the claimed formula gives `1 * 2^1 / φ`. -/
theorem c2_all_ones_row_counterexample :
    ¬ ((kOf c2Sketch : ℚ) > 0.3 * (c2Sketch.nmap : ℚ)) ∧
    pcsaCount c2Sketch ≠ specFMCount c2Sketch := by
  have hk : ¬ ((kOf c2Sketch : ℚ) > 0.3 * (c2Sketch.nmap : ℚ)) := by
    norm_num [show kOf c2Sketch = 0 from rfl, show c2Sketch.nmap = 1 from rfl]
  refine ⟨hk, ?_⟩
  have hsum : sumIx c2Sketch = 0 := rfl
  have hspec : ((List.range c2Sketch.nmap).map
      (fun row => specFirstZero c2Sketch.length (c2Sketch.bitmap.getD row []))).sum = 1 := rfl
  have hphi : c2Sketch.PHI = (0.773519 : ℝ) := by
    show phiOf 0 = _
    rw [phiOf, if_pos rfl]
  rw [pcsaCount, if_neg hk, specFMCount, hsum, hspec, hphi]
  norm_num [show c2Sketch.nmap = 1 from rfl, Real.rpow_zero, Real.rpow_one]

/-- C2 (amended): in the Flajolet-Martin regime (`k ≤ 0.3 * nmap`),
`count()` returns `nmap * 2^((Σ R_row)/nmap) / phi` where `R_row` is the
index of the first 0-bit of the row and `R_row = 0` (the row contributes
nothing) when every bit of the row is 1; when the row does contain a 0-bit,
the code's `R_row` agrees with the spec's first-0-bit index. -/
theorem c2_fm_regime_formula (s : PCSA) (hwf : s.WF)
    (hreg : ¬ ((kOf s : ℚ) > 0.3 * (s.nmap : ℚ))) :
    pcsaCount s = (s.nmap : ℝ) * (2 : ℝ) ^ ((sumIx s : ℝ) / (s.nmap : ℝ)) / s.PHI ∧
    (∀ row ∈ s.bitmap, false ∉ row → codeFirstZero s.length row = 0) ∧
    (∀ row ∈ s.bitmap, false ∈ row →
      codeFirstZero s.length row = specFirstZero s.length row) := by
  refine ⟨by rw [pcsaCount, if_neg hreg], ?_, ?_⟩
  · intro row hrow hall
    have hlen : row.length = s.length := hwf.2.2.2 row hrow
    have hnone : (List.range s.length).find? (fun c => row.getD c false == false) = none := by
      rw [List.find?_eq_none]
      intro c hc
      have hc' : c < row.length := hlen ▸ List.mem_range.mp hc
      rw [List.getD_eq_getElem row false hc']
      intro hcontra
      have hfc : row[c] = false := by simpa using hcontra
      exact hall (hfc ▸ List.getElem_mem hc')
    rw [codeFirstZero, hnone]
    rfl
  · intro row hrow hmem
    have hlen : row.length = s.length := hwf.2.2.2 row hrow
    obtain ⟨n, hn, hval⟩ := List.mem_iff_getElem.mp hmem
    rcases hf : (List.range s.length).find? (fun c => row.getD c false == false) with _ | j
    · exfalso
      have hcontra := List.find?_eq_none.mp hf n (List.mem_range.mpr (hlen ▸ hn))
      rw [List.getD_eq_getElem row false hn, hval] at hcontra
      simp at hcontra
    · rw [codeFirstZero, specFirstZero, hf]
      rfl

/-- Witness for C2's amended theorem at the concrete sketch `c2Sketch`. -/
theorem c2_fm_regime_formula_witness :
    c2Sketch.WF ∧
    (pcsaCount c2Sketch =
        (c2Sketch.nmap : ℝ) * (2 : ℝ) ^ ((sumIx c2Sketch : ℝ) / (c2Sketch.nmap : ℝ)) /
          c2Sketch.PHI ∧
      (∀ row ∈ c2Sketch.bitmap, false ∉ row → codeFirstZero c2Sketch.length row = 0) ∧
      (∀ row ∈ c2Sketch.bitmap, false ∈ row →
        codeFirstZero c2Sketch.length row = specFirstZero c2Sketch.length row)) := by
  have hwf : c2Sketch.WF := by
    unfold PCSA.WF
    refine ⟨le_refl 1, le_refl 1, rfl, ?_⟩
    decide
  exact ⟨hwf, c2_fm_regime_formula c2Sketch hwf
    (by norm_num [show kOf c2Sketch = 0 from rfl, show c2Sketch.nmap = 1 from rfl])⟩

/-- State of an RRT or GRR mechanism after construction (rrt.py). -/
structure DPMech where
  epsilon : ℝ
  dimension : ℕ
  prob1 : ℝ
  prob2 : ℝ

/-- `RRT.__init__` field computation (rrt.py lines 64-67):
`prob2 = 1/dimension`, `prob1 = (e^ε - 1)/(e^ε + dimension - 1)`. -/
noncomputable def mkRRT (eps : ℝ) (d : ℕ) : DPMech :=
  { epsilon := eps, dimension := d,
    prob1 := (Real.exp eps - 1) / (Real.exp eps + (d : ℝ) - 1),
    prob2 := 1 / (d : ℝ) }

/-- `GRR.__init__` field computation (rrt.py lines 180-183):
`prob1 = e^ε/(e^ε + dimension - 1)`, `prob2 = (1 - prob1)/(dimension - 1)`. -/
noncomputable def mkGRR (eps : ℝ) (d : ℕ) : DPMech :=
  { epsilon := eps, dimension := d,
    prob1 := Real.exp eps / (Real.exp eps + (d : ℝ) - 1),
    prob2 := (1 - Real.exp eps / (Real.exp eps + (d : ℝ) - 1)) / ((d : ℝ) - 1) }

/-- Construction guards shared by `RRT.__init__` and `GRR.__init__`
(rrt.py lines 55-62 and 171-178). -/
noncomputable def rrtNew (eps : ℝ) (d : ℕ) : Except String DPMech :=
  if eps < 0 then .error "epsilon has to be positive"
  else if d ≤ 1 then .error "dimension has to be bigger than 1"
  else .ok (mkRRT eps d)

/-- Python `int()` on a real value: truncation toward zero. -/
noncomputable def pyInt (x : ℝ) : ℤ := if x < 0 then ⌈x⌉ else ⌊x⌋

/-- `RRT.get_cardinality` (rrt.py lines 80-98): Python raises
`ZeroDivisionError` on `card/n` when `n = 0` and on `/ prob1` when
`prob1 = 0`; otherwise the estimate is clamped at 0 and passed to `int`. -/
noncomputable def rrtGetCard (m : DPMech) (card n : ℤ) : Except String ℤ :=
  if n = 0 then .error "ZeroDivisionError"
  else if m.prob1 = 0 then .error "ZeroDivisionError"
  else
    let e := (((card : ℝ) / (n : ℝ)) - m.prob2 + m.prob1 * m.prob2) / m.prob1 * (n : ℝ)
    .ok (pyInt (if e < 0 then 0 else e))

/-- `GRR.get_cardinality` (rrt.py lines 196-214): raises `ZeroDivisionError`
when `prob1 - prob2 = 0`; otherwise clamp at 0, then `int`. -/
noncomputable def grrGetCard (m : DPMech) (card n : ℤ) : Except String ℤ :=
  if m.prob1 - m.prob2 = 0 then .error "ZeroDivisionError"
  else
    let e := ((card : ℝ) - (n : ℝ) * m.prob2) / (m.prob1 - m.prob2)
    .ok (pyInt (if e < 0 then 0 else e))

/-- `RRT.dp` (rrt.py lines 100-120): report the true element when the
uniform draw `u` is below `prob1`, otherwise `random.choice(uniques)`
(the chosen index is the explicit argument `pick`). -/
noncomputable def rrtDp {α : Type} [DecidableEq α] (m : DPMech) (u : ℝ) (pick : ℕ)
    (element : α) (uniques : List α) : Except String α :=
  if element ∉ uniques then .error "Element is not in uniques"
  else if u < m.prob1 then .ok element
  else .ok (uniques.getD pick element)

/-- `GRR.dp` (rrt.py lines 216-242): on the forced branch the code builds
`unique = deepcopy(uniques); unique.remove(element)` but then returns
`random.choice(uniques)` over the ORIGINAL list, so the dead `_unique`
binding is kept here verbatim. -/
noncomputable def grrDp {α : Type} [DecidableEq α] (m : DPMech) (u : ℝ) (pick : ℕ)
    (element : α) (uniques : List α) : Except String α :=
  if element ∉ uniques then .error "Element is not in uniques"
  else if u < m.prob1 then .ok element
  else
    let _unique := uniques.erase element
    .ok (uniques.getD pick element)

/-- C3: the claim (and the code's own docstring, "Forced answer can't be
'element'") says the forced branch of `GRR.dp` draws from
`universe \ {true_value}`.  Evaluating the embedded code: with
`GRR(epsilon=0, dimension=2)` (`prob_true = 1/2`), true value `1`,
universe `[1, 2]`, draw `u = 0.75 ≥ prob_true` and choice index `0`, the
forced branch RETURNS THE TRUE VALUE `1`, because the code passes the
original `uniques` (not the element-removed copy) to `random.choice`. -/
theorem c3_grr_forced_returns_true_value :
    grrDp (mkGRR 0 2) 0.75 0 (1 : ℤ) [1, 2] = .ok 1 := by
  have h1 : (mkGRR 0 2).prob1 = 1 / 2 := by
    show Real.exp 0 / (Real.exp 0 + ((2 : ℕ) : ℝ) - 1) = 1 / 2
    rw [Real.exp_zero]
    norm_num
  rw [grrDp, if_neg (by decide), if_neg (by rw [h1]; norm_num)]
  rfl

/-- C4 counterexample: the claimed RRT invariant
`prob_true + dimension * prob_other = 1` fails at `RRT(epsilon=1, dimension=2)`:
there `prob_other = 1/2` and `prob_true = (e-1)/(e+1) > 0`, so the sum is
`prob_true + 1 ≠ 1`. -/
theorem c4_rrt_invariant_counterexample :
    (mkRRT 1 2).prob1 + (2 : ℝ) * (mkRRT 1 2).prob2 ≠ 1 := by
  have h2 : (mkRRT 1 2).prob2 = 1 / 2 := by
    show (1 : ℝ) / ((2 : ℕ) : ℝ) = 1 / 2
    norm_num
  have he : (2 : ℝ) ≤ Real.exp 1 := by
    have h := Real.add_one_le_exp (1 : ℝ)
    linarith
  have hp : 0 < (mkRRT 1 2).prob1 := by
    show 0 < (Real.exp 1 - 1) / (Real.exp 1 + ((2 : ℕ) : ℝ) - 1)
    apply div_pos
    · linarith
    · push_cast
      linarith
  rw [h2]
  intro hcontra
  have : (mkRRT 1 2).prob1 = 0 := by linarith
  linarith

/-- C4 (amended): for every `epsilon ≥ 0` and `dimension ≥ 2`,
`prob_true + (dimension - 1) * prob_other = 1` holds for GRR; for RRT the
invariant is instead `dimension * prob_other = 1` (equivalently
`prob_true + (1 - prob_true) * dimension * prob_other = 1`), because RRT's
`prob_other = 1/dimension` is the per-value probability of the forced draw. -/
theorem c4_probability_invariants (eps : ℝ) (d : ℕ) (heps : 0 ≤ eps) (hd : 2 ≤ d) :
    (mkGRR eps d).prob1 + ((d : ℝ) - 1) * (mkGRR eps d).prob2 = 1 ∧
    (d : ℝ) * (mkRRT eps d).prob2 = 1 ∧
    (mkRRT eps d).prob1 + (1 - (mkRRT eps d).prob1) * ((d : ℝ) * (mkRRT eps d).prob2) = 1 := by
  have hd2 : (2 : ℝ) ≤ (d : ℝ) := by exact_mod_cast hd
  have hd1 : (d : ℝ) - 1 ≠ 0 := by linarith
  have hd0 : (d : ℝ) ≠ 0 := by linarith
  have hE : 0 < Real.exp eps := Real.exp_pos eps
  have hden : Real.exp eps + (d : ℝ) - 1 ≠ 0 := by linarith
  have hgrr : (mkGRR eps d).prob1 + ((d : ℝ) - 1) * (mkGRR eps d).prob2 = 1 := by
    show Real.exp eps / (Real.exp eps + (d : ℝ) - 1) +
        ((d : ℝ) - 1) * ((1 - Real.exp eps / (Real.exp eps + (d : ℝ) - 1)) / ((d : ℝ) - 1)) = 1
    field_simp
    ring
  have hrrt : (d : ℝ) * (mkRRT eps d).prob2 = 1 := by
    show (d : ℝ) * (1 / (d : ℝ)) = 1
    field_simp
  refine ⟨hgrr, hrrt, ?_⟩
  rw [hrrt]
  ring

/-- C5 counterexample: the claim says `invert(c, n)` returns a value `≥ 0`
without raising any error, "in particular ... when n = 0"; but
`RRT(epsilon=1, dimension=2).get_cardinality(5, 0)` raises
`ZeroDivisionError` (division `card/n`). -/
theorem c5_invert_n_zero_raises :
    rrtGetCard (mkRRT 1 2) 5 0 = .error "ZeroDivisionError" := by
  rw [rrtGetCard, if_pos rfl]

/-- Helper: `int(clamp0(e))` is never negative. -/
theorem pyInt_clamp_nonneg (e : ℝ) : 0 ≤ pyInt (if e < 0 then 0 else e) := by
  rcases lt_or_le e 0 with h | h
  · rw [if_pos h, pyInt]
    norm_num
  · rw [if_neg (not_lt.mpr h), pyInt, if_neg (not_lt.mpr h)]
    exact Int.floor_nonneg.mpr h

/-- C5 (amended): for mechanisms constructed with `epsilon > 0` and
`dimension ≥ 2`, `get_cardinality` returns a non-negative integer: for GRR on
every `(c, n)`, for RRT on every `(c, n)` with `n ≠ 0`; at `n = 0` RRT raises
`ZeroDivisionError` instead. -/
theorem c5_invert_nonneg (eps : ℝ) (d : ℕ) (c n : ℤ) (heps : 0 < eps) (hd : 2 ≤ d) :
    (n ≠ 0 → ∃ v, rrtGetCard (mkRRT eps d) c n = .ok v ∧ 0 ≤ v) ∧
    (∃ w, grrGetCard (mkGRR eps d) c n = .ok w ∧ 0 ≤ w) ∧
    rrtGetCard (mkRRT eps d) c 0 = .error "ZeroDivisionError" := by
  have hE : 1 < Real.exp eps := by
    have h := Real.exp_lt_exp.mpr heps
    rwa [Real.exp_zero] at h
  have hd2 : (2 : ℝ) ≤ (d : ℝ) := by exact_mod_cast hd
  have hden : 0 < Real.exp eps + (d : ℝ) - 1 := by linarith
  have hp1 : 0 < (mkRRT eps d).prob1 := by
    show 0 < (Real.exp eps - 1) / (Real.exp eps + (d : ℝ) - 1)
    exact div_pos (by linarith) hden
  have hsub : (mkGRR eps d).prob1 - (mkGRR eps d).prob2 =
      (Real.exp eps - 1) / (Real.exp eps + (d : ℝ) - 1) := by
    show Real.exp eps / (Real.exp eps + (d : ℝ) - 1) -
        (1 - Real.exp eps / (Real.exp eps + (d : ℝ) - 1)) / ((d : ℝ) - 1) = _
    have hd1 : (d : ℝ) - 1 ≠ 0 := by linarith
    field_simp
    ring
  refine ⟨?_, ?_, by rw [rrtGetCard, if_pos rfl]⟩
  · intro hn
    rw [rrtGetCard, if_neg hn, if_neg (ne_of_gt hp1)]
    exact ⟨_, rfl, pyInt_clamp_nonneg _⟩
  · have hne : (mkGRR eps d).prob1 - (mkGRR eps d).prob2 ≠ 0 := by
      rw [hsub]
      exact ne_of_gt (div_pos (by linarith) hden)
    rw [grrGetCard, if_neg hne]
    exact ⟨_, rfl, pyInt_clamp_nonneg _⟩

/-- Witness for C4's amended theorem at `epsilon = 0`, `dimension = 2`. -/
theorem c4_probability_invariants_witness :
    (0 : ℝ) ≤ 0 ∧ 2 ≤ 2 ∧
    ((mkGRR 0 2).prob1 + ((2 : ℕ) : ℝ) - 1 = (mkGRR 0 2).prob1 + (((2 : ℕ) : ℝ) - 1) →
      True) ∧
    ((mkGRR 0 2).prob1 + (((2 : ℕ) : ℝ) - 1) * (mkGRR 0 2).prob2 = 1 ∧
      ((2 : ℕ) : ℝ) * (mkRRT 0 2).prob2 = 1 ∧
      (mkRRT 0 2).prob1 +
          (1 - (mkRRT 0 2).prob1) * (((2 : ℕ) : ℝ) * (mkRRT 0 2).prob2) = 1) := by
  refine ⟨le_refl 0, le_refl 2, fun _ => trivial, ?_⟩
  exact c4_probability_invariants 0 2 (le_refl 0) (le_refl 2)

/-- Witness for C5's amended theorem at `epsilon = 1`, `dimension = 2`,
`c = 5`, `n = 3`. -/
theorem c5_invert_nonneg_witness :
    (0 : ℝ) < 1 ∧ 2 ≤ 2 ∧
    (((3 : ℤ) ≠ 0 → ∃ v, rrtGetCard (mkRRT 1 2) 5 3 = .ok v ∧ 0 ≤ v) ∧
      (∃ w, grrGetCard (mkGRR 1 2) 5 3 = .ok w ∧ 0 ≤ w) ∧
      rrtGetCard (mkRRT 1 2) 5 0 = .error "ZeroDivisionError") := by
  refine ⟨by norm_num, le_refl 2, ?_⟩
  exact c5_invert_nonneg 1 2 5 3 (by norm_num) (le_refl 2)

/-- Modelled from the spec's words (claim C6): the RRT inversion formula
`((c/n - p2 + p1*p2)/p1) * n`, clamped to 0 first, truncated toward zero
second. -/
noncomputable def rrtInvertSpec (p1 p2 : ℝ) (c n : ℤ) : ℤ :=
  pyInt (max 0 ((((c : ℝ) / (n : ℝ)) - p2 + p1 * p2) / p1 * (n : ℝ)))

/-- Modelled from the spec's words (claim C6): the GRR inversion formula
`(c - n*p2)/(p1 - p2)`, clamped to 0 first, truncated toward zero second. -/
noncomputable def grrInvertSpec (p1 p2 : ℝ) (c n : ℤ) : ℤ :=
  pyInt (max 0 (((c : ℝ) - (n : ℝ) * p2) / (p1 - p2)))

/-- C6: for every RRT mechanism with `prob1 ≠ 0` and input `n > 0`,
`get_cardinality` returns exactly `int(max(0, ((c/n - p2 + p1*p2)/p1)*n))`,
and for every GRR mechanism with `prob1 ≠ prob2` it returns exactly
`int(max(0, (c - n*p2)/(p1 - p2)))`; clamping to 0 happens before the
truncation toward zero.  (For mechanisms constructed by `__init__` the side
conditions `prob1 ≠ 0` and `prob1 ≠ prob2` are exactly `epsilon > 0`,
see C9.) -/
theorem c6_invert_matches_spec_formula (m g : DPMech) (c n : ℤ)
    (hp1 : m.prob1 ≠ 0) (hn : 0 < n) (hg : g.prob1 ≠ g.prob2) :
    rrtGetCard m c n = .ok (rrtInvertSpec m.prob1 m.prob2 c n) ∧
    grrGetCard g c n = .ok (grrInvertSpec g.prob1 g.prob2 c n) := by
  have hclamp : ∀ e : ℝ, (if e < 0 then (0 : ℝ) else e) = max 0 e := by
    intro e
    rcases lt_or_le e 0 with h | h
    · rw [if_pos h, max_eq_left h.le]
    · rw [if_neg (not_lt.mpr h), max_eq_right h]
  constructor
  · rw [rrtGetCard, if_neg hn.ne', if_neg hp1, rrtInvertSpec]
    simp only [hclamp]
  · rw [grrGetCard, if_neg (sub_ne_zero.mpr hg), grrInvertSpec]
    simp only [hclamp]

/-- Witness for C6 at mechanisms with `prob1 = 1, prob2 = 1/2` (RRT side)
and `prob1 = 1, prob2 = 0` (GRR side), on input `c = 5, n = 3`. -/
theorem c6_invert_matches_spec_formula_witness :
    (DPMech.mk 0 2 1 (1 / 2)).prob1 ≠ 0 ∧ (0 : ℤ) < 3 ∧
    (DPMech.mk 0 2 1 0).prob1 ≠ (DPMech.mk 0 2 1 0).prob2 ∧
    (rrtGetCard (DPMech.mk 0 2 1 (1 / 2)) 5 3 =
        .ok (rrtInvertSpec (DPMech.mk 0 2 1 (1 / 2)).prob1 (DPMech.mk 0 2 1 (1 / 2)).prob2 5 3) ∧
      grrGetCard (DPMech.mk 0 2 1 0) 5 3 =
        .ok (grrInvertSpec (DPMech.mk 0 2 1 0).prob1 (DPMech.mk 0 2 1 0).prob2 5 3)) := by
  refine ⟨by norm_num, by norm_num, by norm_num, ?_⟩
  exact c6_invert_matches_spec_formula (DPMech.mk 0 2 1 (1 / 2)) (DPMech.mk 0 2 1 0) 5 3
    (by norm_num) (by norm_num) (by norm_num)

/-- C9: with `epsilon = 0` (construction only warns), every call to
`get_cardinality` raises `ZeroDivisionError`: for RRT because `prob1 = 0`
(and at `n = 0` already because of `card/n`), for GRR because
`prob1 = prob2 = 1/dimension` makes the denominator zero. -/
theorem c9_epsilon_zero_get_cardinality_raises (d : ℕ) (c n : ℤ) (hd : 2 ≤ d) :
    rrtGetCard (mkRRT 0 d) c n = .error "ZeroDivisionError" ∧
    grrGetCard (mkGRR 0 d) c n = .error "ZeroDivisionError" := by
  have hd2 : (2 : ℝ) ≤ (d : ℝ) := by exact_mod_cast hd
  constructor
  · rcases eq_or_ne n 0 with h0 | h0
    · rw [h0, rrtGetCard, if_pos rfl]
    · have hz : (mkRRT 0 d).prob1 = 0 := by
        show (Real.exp 0 - 1) / (Real.exp 0 + (d : ℝ) - 1) = 0
        rw [Real.exp_zero]
        simp
      rw [rrtGetCard, if_neg h0, if_pos hz]
  · have hz : (mkGRR 0 d).prob1 - (mkGRR 0 d).prob2 = 0 := by
      show Real.exp 0 / (Real.exp 0 + (d : ℝ) - 1) -
          (1 - Real.exp 0 / (Real.exp 0 + (d : ℝ) - 1)) / ((d : ℝ) - 1) = 0
      rw [Real.exp_zero]
      have h1 : (d : ℝ) - 1 ≠ 0 := by linarith
      have h2 : 1 + (d : ℝ) - 1 ≠ 0 := by linarith
      field_simp
    rw [grrGetCard, if_pos hz]

/-- Witness for C9 at `dimension = 2`, `c = 1`, `n = 5`. -/
theorem c9_epsilon_zero_get_cardinality_raises_witness :
    2 ≤ 2 ∧
    (rrtGetCard (mkRRT 0 2) 1 5 = .error "ZeroDivisionError" ∧
      grrGetCard (mkGRR 0 2) 1 5 = .error "ZeroDivisionError") :=
  ⟨le_refl 2, c9_epsilon_zero_get_cardinality_raises 2 1 5 (le_refl 2)⟩

/-- The body of `PCSA.union`'s loop for one operand (pcsa.py lines 223-232):
compare `nmap`, `length` and hash identity against the first operand's
values, then OR the operand's rows into the accumulator. -/
noncomputable def unionStep (p0 u p : PCSA) : Except String PCSA :=
  if p0.nmap ≠ p.nmap then .error "sketches have different values for nmap"
  else if p.length ≠ p0.length then .error "sketches have different values for length"
  else if p.hashId ≠ p0.hashId then .error "pcsa objects use different hash functions"
  else .ok { u with bitmap := orRows u.bitmap p.bitmap }

/-- The `for pcsa_idx in range(0, len(pcsas))` loop of `PCSA.union`. -/
noncomputable def unionGo (p0 u : PCSA) : List PCSA → Except String PCSA
  | [] => .ok u
  | p :: rest => do
    let u' ← unionStep p0 u p
    unionGo p0 u' rest

/-- `PCSA.union` (pcsa.py lines 206-233): `pcsas[0]` raises `IndexError` on
an empty list; a fresh sketch is built with `PCSA(hash_fct, nmap, length)`
(so with the DEFAULT `r = 0`), then every operand is checked and OR-ed in. -/
noncomputable def unionPCSA (ps : List PCSA) : Except String PCSA :=
  match ps with
  | [] => .error "IndexError"
  | p0 :: _ => do
    let u0 ← mkPCSA p0.hashId p0.nmap p0.length 0 []
    unionGo p0 u0 ps

theorem mkPCSA_zero_ok (hid nmap len : ℕ) (h1 : 1 ≤ nmap) (h2 : 1 ≤ len) :
    mkPCSA hid nmap len 0 [] =
      .ok { hashId := hid, nmap := nmap, length := len, r := 0, PHI := phiOf 0,
            bitmap := zeroBitmap nmap len } := by
  rw [mkPCSA, if_neg (by push_neg; omega), if_neg (lt_irrefl (0 : ℚ))]

theorem unionStep_compat (p0 u p : PCSA) (hn : p.nmap = p0.nmap)
    (hl : p.length = p0.length) (hh : p.hashId = p0.hashId) :
    unionStep p0 u p = .ok { u with bitmap := orRows u.bitmap p.bitmap } := by
  rw [unionStep, if_neg (by omega), if_neg (by omega), if_neg (by omega)]

theorem unionPCSA_cons (p0 : PCSA) (rest : List PCSA)
    (h1 : 1 ≤ p0.nmap) (h2 : 1 ≤ p0.length) :
    unionPCSA (p0 :: rest) =
      unionGo p0
        { hashId := p0.hashId, nmap := p0.nmap, length := p0.length, r := 0,
          PHI := phiOf 0, bitmap := zeroBitmap p0.nmap p0.length } (p0 :: rest) := by
  show (do
    let u0 ← mkPCSA p0.hashId p0.nmap p0.length 0 []
    unionGo p0 u0 (p0 :: rest)) = _
  rw [mkPCSA_zero_ok p0.hashId p0.nmap p0.length h1 h2]
  rfl

theorem orRow_zero (r : List Bool) : orRow (List.replicate r.length false) r = r := by
  induction r with
  | nil => rfl
  | cons a t ih =>
    show orRow (List.replicate (t.length + 1) false) (a :: t) = a :: t
    rw [List.replicate_succ]
    show (false || a) :: orRow (List.replicate t.length false) t = a :: t
    rw [Bool.false_or, ih]

theorem orRows_zeroBitmap (b : List (List Bool)) (n l : ℕ) (hn : b.length = n)
    (hb : ∀ r ∈ b, r.length = l) : orRows (zeroBitmap n l) b = b := by
  subst hn
  induction b with
  | nil => rfl
  | cons r rest ih =>
    show orRows (zeroBitmap (rest.length + 1) l) (r :: rest) = r :: rest
    rw [zeroBitmap, List.replicate_succ]
    show orRow (List.replicate l false) r :: orRows (List.replicate rest.length (List.replicate l false)) rest = r :: rest
    have hr : r.length = l := hb r (by simp)
    have h3 : orRow (List.replicate l false) r = r := by
      rw [← hr]
      exact orRow_zero r
    rw [h3]
    show r :: orRows (zeroBitmap rest.length l) rest = r :: rest
    rw [ih (fun q hq => hb q (by simp [hq]))]

theorem orRow_self (r : List Bool) : orRow r r = r := by
  induction r with
  | nil => rfl
  | cons a t ih =>
    show (a || a) :: orRow t t = a :: t
    rw [Bool.or_self, ih]

theorem orRows_self (b : List (List Bool)) : orRows b b = b := by
  induction b with
  | nil => rfl
  | cons r rest ih =>
    show orRow r r :: orRows rest rest = r :: rest
    rw [orRow_self, ih]

theorem orRows_comm (a b : List (List Bool)) : orRows a b = orRows b a :=
  List.zipWith_comm_of_comm orRow (List.zipWith_comm_of_comm or Bool.or_comm) a b

theorem except_bind_ok {α β : Type} (x : α) (f : α → Except String β) :
    ((Except.ok x : Except String α) >>= f) = f x := rfl

theorem unionPCSA_singleton (s : PCSA) (h1 : 1 ≤ s.nmap) (h2 : 1 ≤ s.length) :
    unionPCSA [s] =
      .ok { hashId := s.hashId, nmap := s.nmap, length := s.length, r := 0,
            PHI := phiOf 0,
            bitmap := orRows (zeroBitmap s.nmap s.length) s.bitmap } := by
  rw [unionPCSA_cons s [] h1 h2]
  simp only [unionGo]
  rw [unionStep_compat s _ s rfl rfl rfl, except_bind_ok]

theorem unionPCSA_pair (a b : PCSA) (h1 : 1 ≤ a.nmap) (h2 : 1 ≤ a.length)
    (hn : b.nmap = a.nmap) (hl : b.length = a.length) (hh : b.hashId = a.hashId) :
    unionPCSA [a, b] =
      .ok { hashId := a.hashId, nmap := a.nmap, length := a.length, r := 0,
            PHI := phiOf 0,
            bitmap := orRows (orRows (zeroBitmap a.nmap a.length) a.bitmap) b.bitmap } := by
  rw [unionPCSA_cons a [b] h1 h2]
  simp only [unionGo]
  rw [unionStep_compat a _ a rfl rfl rfl, except_bind_ok,
    unionStep_compat a _ b hn hl hh, except_bind_ok]

theorem unionStep_ok_fields {p0 acc p v : PCSA} (h : unionStep p0 acc p = .ok v) :
    v.r = acc.r ∧ v.PHI = acc.PHI ∧ v.bitmap = orRows acc.bitmap p.bitmap := by
  rw [unionStep] at h
  split_ifs at h
  all_goals
    first
      | exact Except.noConfusion h
      | (obtain rfl := Except.ok.inj h
         exact ⟨rfl, rfl, rfl⟩)

theorem unionGo_ok : ∀ (l : List PCSA) (p0 acc u : PCSA),
    unionGo p0 acc l = .ok u →
    u.r = acc.r ∧ u.PHI = acc.PHI ∧
    u.bitmap = l.foldl (fun bm p => orRows bm p.bitmap) acc.bitmap := by
  intro l
  induction l with
  | nil =>
    intro p0 acc u h
    obtain rfl := Except.ok.inj h
    exact ⟨rfl, rfl, rfl⟩
  | cons p rest ih =>
    intro p0 acc u h
    simp only [unionGo] at h
    rcases hs : unionStep p0 acc p with e | v
    · rw [hs] at h
      exact Except.noConfusion (show (Except.error e : Except String PCSA) = .ok u from h)
    · rw [hs, except_bind_ok] at h
      obtain ⟨h1, h2, h3⟩ := ih p0 v u h
      obtain ⟨s1, s2, s3⟩ := unionStep_ok_fields hs
      refine ⟨h1.trans s1, h2.trans s2, ?_⟩
      rw [List.foldl_cons, h3, s3]

/-- C7: for compatible well-formed sketches, `union([s])` has a bitmap
bitwise equal to `s`'s, `union([a,b])` and `union([b,a])` have bitwise-equal
bitmaps, `union([a,a])` has `a`'s bitmap, and the result's bitmap is the
element-wise OR of the operands' bitmaps (operands are untouched: the
embedding is purely functional and the code ORs into a fresh sketch). -/
theorem c7_union_identity_comm_idem (s a b : PCSA) (hs : s.WF) (ha : a.WF)
    (hn : b.nmap = a.nmap) (hl : b.length = a.length) (hh : b.hashId = a.hashId)
    (hbwf : b.WF) :
    (unionPCSA [s]).map PCSA.bitmap = .ok s.bitmap ∧
    (unionPCSA [a, b]).map PCSA.bitmap = (unionPCSA [b, a]).map PCSA.bitmap ∧
    (unionPCSA [a, a]).map PCSA.bitmap = .ok a.bitmap ∧
    (unionPCSA [a, b]).map PCSA.bitmap = .ok (orRows a.bitmap b.bitmap) := by
  have hz : ∀ t : PCSA, t.WF →
      orRows (zeroBitmap t.nmap t.length) t.bitmap = t.bitmap := by
    intro t ht
    exact orRows_zeroBitmap t.bitmap t.nmap t.length ht.2.2.1 ht.2.2.2
  have hpair : (unionPCSA [a, b]).map PCSA.bitmap = .ok (orRows a.bitmap b.bitmap) := by
    rw [unionPCSA_pair a b ha.1 ha.2.1 hn hl hh]
    show Except.ok (orRows (orRows (zeroBitmap a.nmap a.length) a.bitmap) b.bitmap) = _
    rw [hz a ha]
  have hpair' : (unionPCSA [b, a]).map PCSA.bitmap = .ok (orRows b.bitmap a.bitmap) := by
    rw [unionPCSA_pair b a (by rw [hn]; exact ha.1) (by rw [hl]; exact ha.2.1)
      hn.symm hl.symm hh.symm]
    show Except.ok (orRows (orRows (zeroBitmap b.nmap b.length) b.bitmap) a.bitmap) = _
    rw [hz b hbwf]
  refine ⟨?_, ?_, ?_, hpair⟩
  · rw [unionPCSA_singleton s hs.1 hs.2.1]
    show Except.ok (orRows (zeroBitmap s.nmap s.length) s.bitmap) = _
    rw [hz s hs]
  · rw [hpair, hpair', orRows_comm]
  · rw [unionPCSA_pair a a ha.1 ha.2.1 rfl rfl rfl]
    show Except.ok (orRows (orRows (zeroBitmap a.nmap a.length) a.bitmap) a.bitmap) = _
    rw [hz a ha, orRows_self]

/-- One-row sketches with a single set bit, mirroring scenario C of the
spec's test list (`PCSA(mmh3,1,3)` with bits 0 and 2 set). -/
noncomputable def c7SketchA : PCSA :=
  { hashId := 0, nmap := 1, length := 3, r := 0, PHI := phiOf 0,
    bitmap := [[true, false, false]] }

/-- Companion sketch for the C7 witness. -/
noncomputable def c7SketchB : PCSA :=
  { hashId := 0, nmap := 1, length := 3, r := 0, PHI := phiOf 0,
    bitmap := [[false, false, true]] }

/-- Witness for C7 at the two concrete one-row sketches. -/
theorem c7_union_identity_comm_idem_witness :
    c7SketchA.WF ∧ c7SketchB.WF ∧
    ((unionPCSA [c7SketchA]).map PCSA.bitmap = .ok c7SketchA.bitmap ∧
      (unionPCSA [c7SketchA, c7SketchB]).map PCSA.bitmap =
        (unionPCSA [c7SketchB, c7SketchA]).map PCSA.bitmap ∧
      (unionPCSA [c7SketchA, c7SketchA]).map PCSA.bitmap = .ok c7SketchA.bitmap ∧
      (unionPCSA [c7SketchA, c7SketchB]).map PCSA.bitmap =
        .ok (orRows c7SketchA.bitmap c7SketchB.bitmap)) := by
  have hA : c7SketchA.WF := by
    unfold PCSA.WF
    exact ⟨le_refl 1, by decide, rfl, by decide⟩
  have hB : c7SketchB.WF := by
    unfold PCSA.WF
    exact ⟨le_refl 1, by decide, rfl, by decide⟩
  exact ⟨hA, hB, c7_union_identity_comm_idem c7SketchA c7SketchA c7SketchB hA hA rfl rfl rfl hB⟩

/-- C10: whatever the operands' perturbation parameters are, `PCSA.union`
builds its result with the default `r = 0`, hence `PHI = 0.773519`, and its
bitmap is exactly the fold of element-wise ORs over the all-zero bitmap —
no perturbation is ever applied to the result. -/
theorem c10_union_result_default_r (p0 : PCSA) (rest : List PCSA) (u : PCSA)
    (h : unionPCSA (p0 :: rest) = .ok u) :
    u.r = 0 ∧ u.PHI = (0.773519 : ℝ) ∧
    u.bitmap = (p0 :: rest).foldl (fun bm p => orRows bm p.bitmap)
      (zeroBitmap p0.nmap p0.length) := by
  by_cases hg : p0.nmap < 1 ∨ p0.length < 1
  · exfalso
    have herr : unionPCSA (p0 :: rest) = .error "nmap and length have to be at least 1" := by
      show (do
        let u0 ← mkPCSA p0.hashId p0.nmap p0.length 0 []
        unionGo p0 u0 (p0 :: rest)) = _
      rw [mkPCSA, if_pos hg]
      rfl
    rw [herr] at h
    exact Except.noConfusion h
  · push_neg at hg
    obtain ⟨hga, hgb⟩ := hg
    rw [unionPCSA_cons p0 rest (by omega) (by omega)] at h
    obtain ⟨h1, h2, h3⟩ := unionGo_ok (p0 :: rest) p0 _ u h
    refine ⟨h1, ?_, h3⟩
    rw [h2]
    show phiOf 0 = _
    rw [phiOf, if_pos rfl]

/-- A one-bit sketch used as the C10 witness operand. -/
noncomputable def c10Sketch : PCSA :=
  { hashId := 0, nmap := 1, length := 1, r := 0, PHI := phiOf 0, bitmap := [[true]] }

/-- Witness for C10: `union([c10Sketch])` succeeds and the theorem applies. -/
theorem c10_union_result_default_r_witness :
    ∃ u, unionPCSA [c10Sketch] = .ok u ∧
      (u.r = 0 ∧ u.PHI = (0.773519 : ℝ) ∧
        u.bitmap = [c10Sketch].foldl (fun bm p => orRows bm p.bitmap)
          (zeroBitmap c10Sketch.nmap c10Sketch.length)) := by
  have hu := unionPCSA_singleton c10Sketch (le_refl 1) (le_refl 1)
  exact ⟨_, hu, c10_union_result_default_r c10Sketch [] _ hu⟩

/-- Category values handled by `PrivSketch`: Python ints and strings. -/
inductive PyVal
  | vint : ℤ → PyVal
  | vstr : String → PyVal
deriving DecidableEq

/-- Decimal digit value of a character, if any. -/
def digitVal (c : Char) : Option ℕ :=
  if '0' ≤ c ∧ c ≤ '9' then some (c.toNat - '0'.toNat) else none

/-- Parse a non-empty all-digit character list as a natural number. -/
def parseDigits : List Char → Option ℕ
  | [] => none
  | [c] => digitVal c
  | c :: rest => do
    let d ← digitVal c
    let t ← parseDigits rest
    some (d * 10 ^ rest.length + t)

/-- Python `int(s)` on a string: an optional minus sign followed by digits
parses to an integer, anything else raises `ValueError`.  (Python also
strips surrounding whitespace and accepts a plus sign and underscores; those
inputs do not occur in the claims.) -/
def pyStrToInt (s : String) : Option ℤ :=
  match s.data with
  | '-' :: rest => (parseDigits rest).map (fun n => -(n : ℤ))
  | l => (parseDigits l).map (fun n => (n : ℤ))

/-- Python `int(x)` on a category value: identity on ints, parse on strings
(`none` models a raised `ValueError`). -/
def pyIntOf : PyVal → Option ℤ
  | .vint n => some n
  | .vstr s => pyStrToInt s

/-- Python dict lookup `d[k]` for the per-category sketch map keyed by the
universe values, with an integer key `k`: an int key only ever compares
equal to `vint` entries. -/
def dictFind (l : List (PyVal × PCSA)) (k : ℤ) : Option PCSA :=
  (l.find? (fun e => e.1 == PyVal.vint k)).map (fun e => e.2)

/-- Python dict assignment `d[k] = s'` for an integer key `k`. -/
def dictUpdate (l : List (PyVal × PCSA)) (k : ℤ) (s' : PCSA) : List (PyVal × PCSA) :=
  l.map (fun e => if e.1 = PyVal.vint k then (e.1, s') else e)

/-- `PrivSketch.count_dp` (priv_sketch.py lines 56-66): pipe the category
through the configured DP mechanism's `dp` (the argument `dpf`), then
execute `self.sketch[int(element)].add(idnr)` — the randomized category is
cast to `int` BEFORE indexing the per-category map, so `int(element)` may
raise `ValueError`, the lookup may raise `KeyError`, and only then is the
user id (hash `idnrHash`) added. -/
def privCountDP (dpf : PyVal → List PyVal → Except String PyVal)
    (uniques : List PyVal) (sketches : List (PyVal × PCSA))
    (idnrHash : ℕ) (category : PyVal) : Except String (List (PyVal × PCSA)) := do
  let element ← dpf category uniques
  match pyIntOf element with
  | none => .error "ValueError"
  | some k =>
    match dictFind sketches k with
    | none => .error "KeyError"
    | some s => do
      let s' ← pcsaAdd s idnrHash
      .ok (dictUpdate sketches k s')

/-- The `for unq in uniques` loop of `PrivSketch.__init__`
(priv_sketch.py lines 47-54): build one PCSA per category. -/
noncomputable def initSketches (nmap len : ℕ) (r : ℚ) (pert : List (List Bool)) :
    List PyVal → Except String (List (PyVal × PCSA))
  | [] => .ok []
  | u :: rest => do
    let s ← mkPCSA 0 nmap len r pert
    let tail ← initSketches nmap len r pert rest
    .ok ((u, s) :: tail)

/-- `PrivSketch.__init__` (priv_sketch.py lines 7-54): guard `epsilon ≥ 0`
and a non-empty universe, construct the selected DP mechanism with
`dimension = len(uniques)` (the argument `mechNew`), then one PCSA per
category. -/
noncomputable def privInit (mechNew : ℝ → ℕ → Except String DPMech) (eps : ℝ)
    (uniques : List PyVal) (nmap len : ℕ) (r : ℚ) (pert : List (List Bool)) :
    Except String (DPMech × List (PyVal × PCSA)) :=
  if eps < 0 then .error "epsilon has to be positive"
  else if uniques.length = 0 then .error "size of uniques has to be bigger than 0"
  else do
    let m ← mechNew eps uniques.length
    let sk ← initSketches nmap len r pert uniques
    .ok (m, sk)

theorem mkPCSA_ok_of_ge (hid nmap len : ℕ) (r : ℚ) (pert : List (List Bool))
    (h1 : 1 ≤ nmap) (h2 : 1 ≤ len) :
    mkPCSA hid nmap len r pert =
      .ok { hashId := hid, nmap := nmap, length := len, r := r, PHI := phiOf r,
            bitmap := if 0 < r then orRows (zeroBitmap nmap len) pert
              else zeroBitmap nmap len } := by
  rw [mkPCSA, if_neg (by push_neg; omega)]

theorem initSketches_ok (nmap len : ℕ) (r : ℚ) (pert : List (List Bool))
    (s : PCSA) (hmk : mkPCSA 0 nmap len r pert = .ok s) :
    ∀ uniques : List PyVal,
      initSketches nmap len r pert uniques = .ok (uniques.map (fun u => (u, s))) := by
  intro uniques
  induction uniques with
  | nil => rfl
  | cons u rest ih =>
    show (do
      let s ← mkPCSA 0 nmap len r pert
      let tail ← initSketches nmap len r pert rest
      Except.ok ((u, s) :: tail)) = _
    rw [hmk, except_bind_ok, ih, except_bind_ok, List.map_cons]

/-- C8: `count_dp` looks up `self.sketch[int(element)]`, casting the
randomized category to `int` before indexing the per-category map.  Hence
whenever the reported category `x` is not parseable as an int (`ValueError`)
or parses to an int that is not a key of the map (`KeyError`), ingest raises
instead of inserting — while construction of the `PrivSketch` with the very
same universe succeeds. -/
theorem c8_ingest_int_cast_raises (dpf : PyVal → List PyVal → Except String PyVal)
    (uniques : List PyVal) (sketches : List (PyVal × PCSA)) (idnrHash : ℕ)
    (category x : PyVal) (mechNew : ℝ → ℕ → Except String DPMech) (eps : ℝ)
    (m : DPMech) (nmap len : ℕ) (r : ℚ) (pert : List (List Bool))
    (hdp : dpf category uniques = .ok x)
    (hbad : pyIntOf x = none ∨ ∃ k, pyIntOf x = some k ∧ dictFind sketches k = none)
    (heps : 0 ≤ eps) (hne : uniques ≠ [])
    (hmech : mechNew eps uniques.length = .ok m) (h1 : 1 ≤ nmap) (h2 : 1 ≤ len) :
    (∃ e, privCountDP dpf uniques sketches idnrHash category = .error e) ∧
    (∃ sk, privInit mechNew eps uniques nmap len r pert = .ok (m, sk)) := by
  constructor
  · rcases hbad with hnone | ⟨k, hk, hfind⟩
    · refine ⟨"ValueError", ?_⟩
      rw [privCountDP, hdp, except_bind_ok, hnone]
    · refine ⟨"KeyError", ?_⟩
      rw [privCountDP, hdp, except_bind_ok, hk]
      show (match dictFind sketches k with
        | none => Except.error "KeyError"
        | some s => do
            let s' ← pcsaAdd s idnrHash
            Except.ok (dictUpdate sketches k s')) = _
      rw [hfind]
  · refine ⟨uniques.map (fun u =>
      (u, { hashId := 0, nmap := nmap, length := len, r := r, PHI := phiOf r,
            bitmap := if 0 < r then orRows (zeroBitmap nmap len) pert
              else zeroBitmap nmap len })), ?_⟩
    rw [privInit, if_neg (not_lt.mpr heps),
      if_neg (fun hq => hne (List.length_eq_zero.mp hq)), hmech, except_bind_ok,
      initSketches_ok nmap len r pert _ (mkPCSA_ok_of_ge 0 nmap len r pert h1 h2) uniques,
      except_bind_ok]

/-- The identity reporting mechanism used by the C8 witness (a `dp` that
reports the true category, as RRT does when `u < prob1`). -/
def c8Dpf : PyVal → List PyVal → Except String PyVal := fun c _ => .ok c

/-- A concrete mechanism value for the C8 witness. -/
noncomputable def c8Mech : DPMech :=
  { epsilon := 0, dimension := 2, prob1 := 0, prob2 := 0 }

/-- A mechanism constructor for the C8 witness. -/
noncomputable def c8MechNew : ℝ → ℕ → Except String DPMech := fun _ _ => .ok c8Mech

/-- Witness for C8 on the non-numeric string universe `["a", "b"]`. -/
theorem c8_ingest_int_cast_raises_witness :
    c8Dpf (PyVal.vstr "a") [PyVal.vstr "a", PyVal.vstr "b"] = .ok (PyVal.vstr "a") ∧
    pyIntOf (PyVal.vstr "a") = none ∧
    ((∃ e, privCountDP c8Dpf [PyVal.vstr "a", PyVal.vstr "b"] [] 0 (PyVal.vstr "a") =
        .error e) ∧
      (∃ sk, privInit c8MechNew 0 [PyVal.vstr "a", PyVal.vstr "b"] 1 1 0 [] =
        .ok (c8Mech, sk))) := by
  refine ⟨rfl, by decide, ?_⟩
  exact c8_ingest_int_cast_raises c8Dpf [PyVal.vstr "a", PyVal.vstr "b"] [] 0
    (PyVal.vstr "a") (PyVal.vstr "a") c8MechNew 0 c8Mech 1 1 0 []
    rfl (Or.inl (by decide)) le_rfl (by decide) rfl le_rfl le_rfl
